import Mathlib

/-!
Verification of the GFOP food-count pipeline (`src/gfop/get_food_counts.py`).

The pipeline is embedded shallowly:
* a parsed GNPS clustering table is a `List ClusterRow` (one row per cluster,
  with its numeric value for each named group, its `DefaultGroups` annotation
  and its delimited `UniqueFileSources` list);
* the ontology table produced by `get_sample_types` is a `List FoodRecord`
  (one row per reference file, keyed by `filename`, carrying `sample_name`
  and the `sample_type_group1..6` label columns, `Option`-valued to model
  missing cells);
* file I/O (`pd.read_csv`, `pkg_resources`) is out of scope: the functions
  are modelled from the point where the parsed tables are in hand.

Machine errors raised by pandas are modelled with `Option`:
`pd.concat([])` raises `ValueError` (modelled as `none` in
`get_dataset_food_counts`), and `Series.map` over a mapping series with a
non-unique index raises `InvalidIndexError` (modelled as the `Nodup` guard in
`get_dataset_food_counts_all`).
-/

namespace GfopModel

/-- One row of the ontology/metadata table as returned by `get_sample_types`:
the `filename` index, the `sample_name` column and the
`sample_type_group{i}` columns (accessed as `sample_type_group i`).
Cells may be missing (`none`), which pandas represents as NaN. -/
structure FoodRecord where
  filename : String
  sample_name : Option String
  sample_type_group : Nat → Option String

/-- One row of the parsed GNPS clustering table: the numeric value of each
named group column (`gval "G1"`, ...), the `DefaultGroups` annotation and the
`UniqueFileSources` field (a `|`-joined list of contributing files). -/
structure ClusterRow where
  gval : String → Int
  DefaultGroups : String
  UniqueFileSources : String

/-- Number of occurrences of `x` in `l` (pandas `value_counts` for one key). -/
def countOf (l : List String) (x : String) : Nat :=
  (l.filter (fun y => y == x)).length

/-- Auxiliary for `dedupFirst`: drop elements already seen. -/
def dedupFirstAux {α : Type} [DecidableEq α] : List α → List α → List α
  | [], _ => []
  | x :: xs, seen =>
    if x ∈ seen then dedupFirstAux xs seen else x :: dedupFirstAux xs (x :: seen)

/-- Deduplication keeping the first occurrence of each element, preserving
order (pandas `drop_duplicates` / the index of `value_counts`). -/
def dedupFirst {α : Type} [DecidableEq α] (l : List α) : List α :=
  dedupFirstAux l []

/-- Python `sep.split` semantics on `'|'`: `"a|b".split('|') = ["a","b"]`,
`"".split('|') = [""]`. -/
def splitCharAux (sep : Char) : List Char → List Char → List String
  | [], acc => [String.mk acc.reverse]
  | c :: cs, acc =>
    if c = sep then String.mk acc.reverse :: splitCharAux sep cs []
    else splitCharAux sep cs (c :: acc)

/-- `str.split('|')` as used on `UniqueFileSources`. -/
def pipeSplit (s : String) : List String :=
  splitCharAux '|' s.toList []

/-- Python substring containment `needle in haystack`. -/
def isSubstr (needle haystack : String) : Bool :=
  haystack.toList.tails.any (fun t => needle.toList.isPrefixOf t)

/-- pandas `str.contains(',')`: does the string contain a comma? -/
def hasComma (s : String) : Bool :=
  s.toList.any (fun c => c == ',')

/-- Strict lexicographic order on character lists, comparing code points
(Python string `<`). -/
def charsLt : List Char → List Char → Bool
  | [], [] => false
  | [], _ :: _ => true
  | _ :: _, [] => false
  | a :: as, b :: bs =>
    if a.toNat < b.toNat then true
    else if b.toNat < a.toNat then false
    else charsLt as bs

/-- Lexicographic string order as a `Bool` (Python/pandas string sorting). -/
def strLe (a b : String) : Bool :=
  !(charsLt b.toList a.toList)

/-- Insert into a `strLe`-sorted list. -/
def insertLE (x : String) : List String → List String
  | [] => [x]
  | y :: ys => if strLe x y then x :: y :: ys else y :: insertLE x ys

/-- Sort a list of strings ascending (the `sort=True` of `pd.concat`,
which sorts the union of the per-file label indexes). -/
def sortLE (l : List String) : List String :=
  l.foldr insertLE []

/-! ## `get_sample_metadata` -/

/-- `get_sample_metadata`: drop rows whose `DefaultGroups` contains a comma,
keep rows whose sole group is in `all_groups`, explode the `'|'`-separated
`UniqueFileSources`, rename to `(group, filename)` pairs and
`drop_duplicates`. -/
def get_sample_metadata (gnps_network : List ClusterRow) (all_groups : List String) :
    List (String × String) :=
  let df_filtered := gnps_network.filter (fun r => !(hasComma r.DefaultGroups))
  let df_selected := df_filtered.filter (fun r => decide (r.DefaultGroups ∈ all_groups))
  let exploded := df_selected.flatMap
    (fun r => (pipeSplit r.UniqueFileSources).map (fun fn => (r.DefaultGroups, fn)))
  dedupFirst exploded

/-! ## `get_file_food_counts` -/

/-- The six hardcoded GNPS job group names `{f'G{i}' for i in range(1, 7)}`. -/
def allGroupNames : List String :=
  ["G1", "G2", "G3", "G4", "G5", "G6"]

/-- `groups_excluded = groups - set([*all_groups, *some_groups])`. -/
def excludedGroups (all_groups some_groups : List String) : List String :=
  allGroupNames.filter (fun g => !(decide (g ∈ all_groups ∨ g ∈ some_groups)))

/-- The row-wise boolean mask of `df_selected`: every `all_groups` column
positive, some `some_groups` column positive, every excluded column zero. -/
def rowSelected (r : ClusterRow) (all_groups some_groups : List String) : Bool :=
  all_groups.all (fun g => decide (0 < r.gval g)) &&
  some_groups.any (fun g => decide (0 < r.gval g)) &&
  (excludedGroups all_groups some_groups).all (fun g => decide (r.gval g = 0))

/-- The cluster rows satisfying the group membership pattern. -/
def selectRows (gnps_network : List ClusterRow) (all_groups some_groups : List String) :
    List ClusterRow :=
  gnps_network.filter (fun r => rowSelected r all_groups some_groups)

/-- The target-file restriction `any(fn in cluster_fn for fn in filename)`:
keep a row if any element of `filename` is a substring of its
`UniqueFileSources`. -/
def keepRowFile (filename : List String) (r : ClusterRow) : Bool :=
  filename.any (fun fn => isSubstr fn r.UniqueFileSources)

/-- Python iteration over a `str` yields its characters as 1-character
strings; passing a plain string where the code iterates `filename` tests
each character for containment. -/
def pyStrElems (s : String) : List String :=
  s.toList.map String.singleton

/-- The exploded `UniqueFileSources` of the selected rows
(`.str.split('|').explode()`). -/
def explodedFiles (gnps_network : List ClusterRow)
    (all_groups some_groups filename : List String) : List String :=
  ((selectRows gnps_network all_groups some_groups).filter
      (fun r => keepRowFile filename r)).flatMap
    (fun r => pipeSplit r.UniqueFileSources)

/-- Column selection plus `reindex`: the food label of reference file `fn` at
`level` (`sample_type_group{level}` when `level > 0`, else `sample_name`);
`none` models both a missing row and a NaN cell, which `dropna` removes. -/
def lookupLabel (sample_types : List FoodRecord) (level : Nat) (fn : String) :
    Option String :=
  match sample_types.find? (fun r => r.filename == fn) with
  | none => none
  | some r => if 0 < level then r.sample_type_group level else r.sample_name

/-- `sample_types_selected` after `reindex(filenames).dropna()`: the matched
food labels of the exploded reference files, in explosion order. -/
def selectedLabels (gnps_network : List ClusterRow) (sample_types : List FoodRecord)
    (all_groups some_groups filename : List String) (level : Nat) : List String :=
  (explodedFiles gnps_network all_groups some_groups filename).filterMap
    (lookupLabel sample_types level)

/-- The noise floor: `(sample_types_selected == 'water').sum()` when
`level > 0`, else `0` (file-level filtering not implemented). -/
def waterCount (gnps_network : List ClusterRow) (sample_types : List FoodRecord)
    (all_groups some_groups filename : List String) (level : Nat) : Nat :=
  if 0 < level then
    countOf (selectedLabels gnps_network sample_types all_groups some_groups filename level)
      "water"
  else 0

/-- Insert keeping counts descending (`value_counts` sorts by count). -/
def insertDesc (p : String × Nat) : List (String × Nat) → List (String × Nat)
  | [] => [p]
  | q :: qs => if q.2 < p.2 then p :: q :: qs else q :: insertDesc p qs

/-- Sort label/count pairs by descending count. -/
def sortCountDesc (l : List (String × Nat)) : List (String × Nat) :=
  l.foldr insertDesc []

/-- pandas `value_counts`: one entry per distinct value with its number of
occurrences, ordered by descending count. -/
def valueCounts (l : List String) : List (String × Nat) :=
  sortCountDesc ((dedupFirst l).map (fun x => (x, countOf l x)))

/-- `get_file_food_counts`: select clusters by the group pattern, restrict to
clusters containing a target filename, explode and label the contributing
files, drop labels whose count does not exceed the water noise floor, and
return the remaining frequency table. -/
def get_file_food_counts (gnps_network : List ClusterRow) (sample_types : List FoodRecord)
    (all_groups some_groups filename : List String) (level : Nat) :
    List (String × Nat) :=
  let labels := selectedLabels gnps_network sample_types all_groups some_groups filename level
  let wc := waterCount gnps_network sample_types all_groups some_groups filename level
  let sample_counts_valid := (dedupFirst labels).filter (fun x => wc < countOf labels x)
  let kept := labels.filter (fun x => decide (x ∈ sample_counts_valid))
  valueCounts kept

/-! ## `get_dataset_food_counts` -/

/-- The file × label count matrix: row index (`filename`), column labels
(sorted union of per-file labels) and the integer cell grid. -/
structure CountMatrix where
  rowNames : List String
  colNames : List String
  cells : List (List Nat)
deriving DecidableEq

/-- Value of a label in a per-file frequency table, `0` if absent
(the `fillna(0)` of the matrix assembly). -/
def lookupCount (counts : List (String × Nat)) (l : String) : Nat :=
  match counts.find? (fun p => p.1 == l) with
  | some p => p.2
  | none => 0

/-- The per-file invocation inside the `get_dataset_food_counts` loop:
the filename is wrapped in a singleton list. -/
def perFileCounts (gnps_network : List ClusterRow) (sample_types : List FoodRecord)
    (all_groups some_groups : List String) (level : Nat) (f : String) :
    List (String × Nat) :=
  get_file_food_counts gnps_network sample_types all_groups some_groups [f] level

/-- The files of `metadata['filename']` whose per-file count vector is
nonempty (`if len(file_food_counts) > 0`), in processing order. -/
def keptFiles (gnps_network : List ClusterRow) (sample_types : List FoodRecord)
    (all_groups some_groups : List String) (level : Nat) : List String :=
  ((get_sample_metadata gnps_network all_groups).map Prod.snd).filter
    (fun f => !(perFileCounts gnps_network sample_types all_groups some_groups level f).isEmpty)

/-- The column index of the assembled matrix: `pd.concat(..., sort=True)`
sorts the union of the per-file label indexes. -/
def datasetLabels (gnps_network : List ClusterRow) (sample_types : List FoodRecord)
    (all_groups some_groups : List String) (level : Nat) : List String :=
  sortLE (dedupFirst
    ((keptFiles gnps_network sample_types all_groups some_groups level).flatMap
      (fun f => (perFileCounts gnps_network sample_types all_groups some_groups level f).map
        Prod.fst)))

/-- `get_dataset_food_counts`: run the engine per metadata file, keep files
with a nonempty vector, and assemble the matrix with absent cells filled
with `0`.  When no file qualifies, `pd.concat([])` raises `ValueError`,
modelled as `none`. -/
def get_dataset_food_counts (gnps_network : List ClusterRow) (sample_types : List FoodRecord)
    (all_groups some_groups : List String) (level : Nat) : Option CountMatrix :=
  let kept := keptFiles gnps_network sample_types all_groups some_groups level
  if kept.isEmpty then none
  else
    let labels := datasetLabels gnps_network sample_types all_groups some_groups level
    some ⟨kept, labels,
      kept.map (fun f => labels.map (fun l =>
        lookupCount (perFileCounts gnps_network sample_types all_groups some_groups level f) l))⟩

/-! ## `get_dataset_food_counts_all` -/

/-- One row of the long-format output: `filename, food_type, level, count`
plus the joined `group` (`none` when the filename is absent from the
metadata mapping). -/
structure LongRow where
  filename : String
  food_type : String
  level : Nat
  count : Nat
  group : Option String
deriving DecidableEq

/-- `melt` helper: emit the rows of the remaining columns `colsN`, whose
first element sits at column index `j` of the cell grid; column-major, as
pandas `melt` stacks the value columns one after the other. -/
def meltCols (rowsN : List String) (cells : List (List Nat)) :
    List String → Nat → Nat → List LongRow
  | [], _, _ => []
  | l :: ls, j, lv =>
    (rowsN.zip cells).map (fun p => ⟨p.1, l, lv, p.2.getD j 0, none⟩) ++
      meltCols rowsN cells ls (j + 1) lv

/-- `reset_index().melt(id_vars='filename', ...)` of one level's matrix,
tagged with its level. -/
def meltRows (M : CountMatrix) (lv : Nat) : List LongRow :=
  meltCols M.rowNames M.cells M.colNames 0 lv

/-- Sequence a list of optional results; `none` as soon as one computation
fails (the first raising level aborts the loop). -/
def seqOpt {α : Type} : List (Option α) → Option (List α)
  | [] => some []
  | o :: os =>
    match o with
    | none => none
    | some a =>
      match seqOpt os with
      | none => none
      | some bs => some (a :: bs)

/-- One level's long-format block, `none` when that level's
`get_dataset_food_counts` raises. -/
def levelBlock (gnps_network : List ClusterRow) (sample_types : List FoodRecord)
    (all_groups some_groups : List String) (lv : Nat) : Option (List LongRow) :=
  (get_dataset_food_counts gnps_network sample_types all_groups some_groups lv).map
    (fun M => meltRows M lv)

/-- The final `.map` joining each row's group from
`metadata.set_index('filename')['group']`. -/
def groupFill (metadata : List (String × String)) (r : LongRow) : LongRow :=
  { r with group := (metadata.find? (fun p => p.2 == r.filename)).map Prod.fst }

/-- `get_dataset_food_counts_all`: per level melt and concatenate, then join
the group column.  `none` models the two pandas errors on this path: a level
whose matrix assembly raises, and the `InvalidIndexError` raised by
`Series.map` when the metadata filename index is not unique. -/
def get_dataset_food_counts_all (gnps_network : List ClusterRow)
    (sample_types : List FoodRecord) (all_groups some_groups : List String)
    (levels : Nat) : Option (List LongRow) :=
  let metadata := get_sample_metadata gnps_network all_groups
  match seqOpt ((List.range (levels + 1)).map
      (levelBlock gnps_network sample_types all_groups some_groups)) with
  | none => none
  | some blocks =>
    if (metadata.map Prod.snd).Nodup then
      some ((blocks.flatMap id).map (groupFill metadata))
    else none

/-- Reshape the long-format rows of one level back into a wide matrix:
group by `filename` / `food_type` (in order of first appearance) and pivot
`count`. -/
def pivotLevel (rows : List LongRow) (lv : Nat) : CountMatrix :=
  let rs := rows.filter (fun r => r.level == lv)
  let files := dedupFirst (rs.map (fun r => r.filename))
  let labels := dedupFirst (rs.map (fun r => r.food_type))
  ⟨files, labels,
    files.map (fun f => labels.map (fun l =>
      match rs.find? (fun r => r.filename == f && r.food_type == l) with
      | some r => r.count
      | none => 0))⟩

/-! ## Concrete scenario data

Concrete tables used to instantiate the properties, following the scenario
of the spec (one selected cluster contributing two `fruit` references and
one `water` reference at level 3, together with the study file itself). -/

/-- The spec scenario's single cluster row: `G1 = 5`, all other groups `0`. -/
def scRow : ClusterRow :=
  ⟨fun g => if g == "G1" then 5 else 0, "G1",
   "sample1.mzXML|ref1.mzXML|ref2.mzXML|water1.mzXML"⟩

/-- The spec scenario's clustering table. -/
def scGnps : List ClusterRow := [scRow]

/-- The spec scenario's ontology: `ref1 → fruit`, `ref2 → fruit`,
`water1 → water` at every level. -/
def scOnt : List FoodRecord :=
  [⟨"ref1.mzXML", some "ref1", fun _ => some "fruit"⟩,
   ⟨"ref2.mzXML", some "ref2", fun _ => some "fruit"⟩,
   ⟨"water1.mzXML", some "water1", fun _ => some "water"⟩]

/-- Level-0 scenario: a reference file whose `sample_name` differs from its
`filename`. -/
def c3Gnps : List ClusterRow :=
  [⟨fun g => if g == "G1" then 1 else 0, "G1", "ref1.mzXML"⟩]

/-- Ontology for the level-0 scenario: `ref1.mzXML` has sample name
`"apple juice"`. -/
def c3Ont : List FoodRecord :=
  [⟨"ref1.mzXML", some "apple juice", fun _ => some "fruit"⟩]

/-- A clustering table whose single study file has no ontology matches. -/
def c4Gnps : List ClusterRow :=
  [⟨fun g => if g == "G1" then 1 else 0, "G1", "studyA.mzXML"⟩]

/-- Two selected clusters over distinct files with distinct labels, enough
to expose the ordering of the long-format output. -/
def c8Gnps : List ClusterRow :=
  [⟨fun g => if g == "G1" then 1 else 0, "G1", "sA|rA"⟩,
   ⟨fun g => if g == "G1" then 2 else 0, "G1", "sB|rB"⟩]

/-- Ontology for the ordering scenario: `rA → "la"`, `rB → "lb"`. -/
def c8Ont : List FoodRecord :=
  [⟨"rA", some "la", fun _ => some "ga"⟩,
   ⟨"rB", some "lb", fun _ => some "gb"⟩]

/-- The long-format output of the ordering scenario at `levels = 0`. -/
def c8Rows : List LongRow :=
  [⟨"sA", "la", 0, 1, some "G1"⟩, ⟨"rA", "la", 0, 1, some "G1"⟩,
   ⟨"sB", "la", 0, 0, some "G1"⟩, ⟨"rB", "la", 0, 0, some "G1"⟩,
   ⟨"sA", "lb", 0, 0, some "G1"⟩, ⟨"rA", "lb", 0, 0, some "G1"⟩,
   ⟨"sB", "lb", 0, 1, some "G1"⟩, ⟨"rB", "lb", 0, 1, some "G1"⟩]

/-- A cluster whose `UniqueFileSources` does not contain `"ref9.mzXML"`
as a substring, but does contain several of its single characters. -/
def c10Row : ClusterRow := ⟨fun _ => 1, "G1", "other.mzXML"⟩

/-- An ambiguous cluster row: its `DefaultGroups` lists two groups. -/
def c5Row : ClusterRow := ⟨fun _ => 1, "G1,G2", "x.mzXML"⟩

/-! ## Predicates used to state ordering properties -/

/-- Helper for `isGrouped`: `cur` is the current run's value, `seen` the
values of finished runs. -/
def isGroupedAux {α : Type} [DecidableEq α] : α → List α → List α → Bool
  | _, _, [] => true
  | cur, seen, x :: xs =>
    if x = cur then isGroupedAux cur seen xs
    else if x ∈ seen then false
    else isGroupedAux x (cur :: seen) xs

/-- A list is grouped when equal elements are contiguous: no value recurs
after a different value has intervened. -/
def isGrouped {α : Type} [DecidableEq α] : List α → Bool
  | [] => true
  | x :: xs => isGroupedAux x [] xs

/-- The ordering asserted by the claim: levels ascending, and within each
level the rows grouped by filename (file-major). -/
def fileMajorOrdered (rows : List LongRow) : Bool :=
  decide (List.Sorted (· ≤ ·) (rows.map (fun r => r.level))) &&
  (dedupFirst (rows.map (fun r => r.level))).all
    (fun lv => isGrouped ((rows.filter (fun r => r.level == lv)).map (fun r => r.filename)))

/-- Helper mirroring `dedupFirstAux`'s evolution of its `seen` accumulator. -/
def seenAfter {α : Type} [DecidableEq α] : List α → List α → List α
  | [], seen => seen
  | x :: xs, seen =>
    if x ∈ seen then seenAfter xs seen else seenAfter xs (x :: seen)

/-! ## Library lemmas on the helper functions -/

theorem mem_dedupFirstAux {α : Type} [DecidableEq α] :
    ∀ (l seen : List α) (x : α), x ∈ dedupFirstAux l seen ↔ x ∈ l ∧ x ∉ seen := by
  intro l
  induction l with
  | nil => intro seen x; simp [dedupFirstAux]
  | cons y ys ih =>
    intro seen x
    simp only [dedupFirstAux]
    by_cases h : y ∈ seen
    · rw [if_pos h, ih, List.mem_cons]
      by_cases hxy : x = y
      · subst hxy; simp [h]
      · simp [hxy]
    · rw [if_neg h]
      by_cases hxy : x = y
      · subst hxy; simp [h]
      · simp only [List.mem_cons, hxy, false_or, ih, List.mem_cons]

theorem mem_dedupFirst {α : Type} [DecidableEq α] {l : List α} {x : α} :
    x ∈ dedupFirst l ↔ x ∈ l := by
  rw [dedupFirst, mem_dedupFirstAux]
  simp

theorem nodup_dedupFirstAux {α : Type} [DecidableEq α] :
    ∀ (l seen : List α), (dedupFirstAux l seen).Nodup := by
  intro l
  induction l with
  | nil => intro seen; simp [dedupFirstAux]
  | cons y ys ih =>
    intro seen
    simp only [dedupFirstAux]
    by_cases h : y ∈ seen
    · rw [if_pos h]; exact ih seen
    · rw [if_neg h]
      refine List.nodup_cons.mpr ⟨?_, ih _⟩
      intro hy
      exact ((mem_dedupFirstAux ys (y :: seen) y).mp hy).2 (List.mem_cons_self y seen)

theorem nodup_dedupFirst {α : Type} [DecidableEq α] (l : List α) :
    (dedupFirst l).Nodup :=
  nodup_dedupFirstAux l []

theorem dedupFirstAux_eq_self {α : Type} [DecidableEq α] :
    ∀ (l seen : List α), l.Nodup → (∀ x ∈ l, x ∉ seen) → dedupFirstAux l seen = l := by
  intro l
  induction l with
  | nil => intro seen _ _; rfl
  | cons y ys ih =>
    intro seen hnd hdisj
    have hy : y ∉ seen := hdisj y (List.mem_cons_self y ys)
    simp only [dedupFirstAux, if_neg hy]
    congr 1
    refine ih (y :: seen) (List.nodup_cons.mp hnd).2 ?_
    intro x hx
    rw [List.mem_cons]
    rintro (rfl | hs)
    · exact (List.nodup_cons.mp hnd).1 hx
    · exact hdisj x (List.mem_cons_of_mem y hx) hs

theorem dedupFirst_eq_self {α : Type} [DecidableEq α] {l : List α} (h : l.Nodup) :
    dedupFirst l = l :=
  dedupFirstAux_eq_self l [] h (by simp)

theorem dedupFirstAux_eq_nil {α : Type} [DecidableEq α] :
    ∀ (l seen : List α), (∀ x ∈ l, x ∈ seen) → dedupFirstAux l seen = [] := by
  intro l
  induction l with
  | nil => intro seen _; rfl
  | cons y ys ih =>
    intro seen hsub
    simp only [dedupFirstAux, if_pos (hsub y (List.mem_cons_self y ys))]
    exact ih seen (fun x hx => hsub x (List.mem_cons_of_mem y hx))

theorem dedupFirstAux_append {α : Type} [DecidableEq α] :
    ∀ (l r seen : List α),
      dedupFirstAux (l ++ r) seen = dedupFirstAux l seen ++ dedupFirstAux r (seenAfter l seen) := by
  intro l
  induction l with
  | nil => intro r seen; rfl
  | cons y ys ih =>
    intro r seen
    simp only [List.cons_append, dedupFirstAux, seenAfter, List.append_eq]
    by_cases h : y ∈ seen
    · simp only [if_pos h]
      exact ih r seen
    · simp only [if_neg h, List.cons_append]
      rw [ih]

theorem mem_seenAfter {α : Type} [DecidableEq α] :
    ∀ (l seen : List α) (x : α), x ∈ seenAfter l seen ↔ x ∈ l ∨ x ∈ seen := by
  intro l
  induction l with
  | nil => intro seen x; simp [seenAfter]
  | cons y ys ih =>
    intro seen x
    simp only [seenAfter]
    by_cases h : y ∈ seen
    · rw [if_pos h, ih, List.mem_cons]
      constructor
      · rintro (h1 | h2)
        · exact Or.inl (Or.inr h1)
        · exact Or.inr h2
      · rintro ((rfl | h1) | h2)
        · exact Or.inr h
        · exact Or.inl h1
        · exact Or.inr h2
    · rw [if_neg h, ih, List.mem_cons, List.mem_cons]
      tauto

theorem dedupFirst_append_of_subset {α : Type} [DecidableEq α] {l r : List α}
    (h : ∀ x ∈ r, x ∈ l) : dedupFirst (l ++ r) = dedupFirst l := by
  rw [dedupFirst, dedupFirstAux_append, dedupFirst]
  rw [dedupFirstAux_eq_nil r (seenAfter l [])
    (fun x hx => (mem_seenAfter l [] x).mpr (Or.inl (h x hx)))]
  exact List.append_nil _

theorem countOf_eq_count (l : List String) (x : String) :
    countOf l x = l.count x := by
  rw [countOf, List.count, List.countP_eq_length_filter]

theorem countOf_pos {l : List String} {x : String} (h : x ∈ l) : 0 < countOf l x := by
  rw [countOf_eq_count]
  exact List.count_pos_iff.mpr h

theorem countOf_filter_of_pos {l : List String} {p : String → Bool} {x : String}
    (h : p x = true) : countOf (l.filter p) x = countOf l x := by
  rw [countOf_eq_count, countOf_eq_count]
  exact List.count_filter h

theorem mem_insertDesc (p : String × Nat) :
    ∀ (l : List (String × Nat)) (q : String × Nat),
      q ∈ insertDesc p l ↔ q = p ∨ q ∈ l := by
  intro l
  induction l with
  | nil => intro q; simp [insertDesc]
  | cons y ys ih =>
    intro q
    simp only [insertDesc]
    split
    · simp
    · rw [List.mem_cons, ih, List.mem_cons]
      tauto

theorem mem_sortCountDesc :
    ∀ (l : List (String × Nat)) (q : String × Nat), q ∈ sortCountDesc l ↔ q ∈ l := by
  intro l
  induction l with
  | nil => intro q; simp [sortCountDesc]
  | cons y ys ih =>
    intro q
    simp only [sortCountDesc, List.foldr_cons] at *
    rw [mem_insertDesc, ih, List.mem_cons]

theorem mem_valueCounts {l : List String} {q : String × Nat} :
    q ∈ valueCounts l ↔ ∃ x ∈ dedupFirst l, q = (x, countOf l x) := by
  rw [valueCounts, mem_sortCountDesc, List.mem_map]
  constructor
  · rintro ⟨x, hx, h⟩
    exact ⟨x, hx, h.symm⟩
  · rintro ⟨x, hx, h⟩
    exact ⟨x, hx, h.symm⟩

theorem insertLE_perm (x : String) : ∀ l : List String, (insertLE x l).Perm (x :: l) := by
  intro l
  induction l with
  | nil => exact List.Perm.refl _
  | cons y ys ih =>
    simp only [insertLE]
    split
    · exact List.Perm.refl _
    · exact (List.Perm.cons y ih).trans (List.Perm.swap x y ys)

theorem sortLE_perm : ∀ l : List String, (sortLE l).Perm l := by
  intro l
  induction l with
  | nil => exact List.Perm.refl _
  | cons y ys ih =>
    simp only [sortLE, List.foldr_cons] at *
    exact (insertLE_perm y _).trans (List.Perm.cons y ih)

theorem mem_sortLE {l : List String} {x : String} : x ∈ sortLE l ↔ x ∈ l :=
  (sortLE_perm l).mem_iff

theorem nodup_sortLE {l : List String} (h : l.Nodup) : (sortLE l).Nodup :=
  (sortLE_perm l).nodup_iff.mpr h

theorem zip_self_map {α β : Type} (f : α → β) :
    ∀ l : List α, l.zip (l.map f) = l.map (fun a => (a, f a)) := by
  intro l
  induction l with
  | nil => rfl
  | cons y ys ih => simp [List.zip_cons_cons, ih]

theorem find?_beq_self : ∀ (l : List String) (f : String), f ∈ l →
    l.find? (fun x => x == f) = some f := by
  intro l
  induction l with
  | nil => intro f hf; cases hf
  | cons y ys ih =>
    intro f hf
    by_cases h : (y == f) = true
    · have hyf : y = f := eq_of_beq h
      subst hyf
      simp [List.find?_cons]
    · rcases List.mem_cons.mp hf with rfl | hmem
      · exact absurd (beq_self_eq_true f) h
      · simp [List.find?_cons, h, ih f hmem]

end GfopModel

namespace GfopModel

/-! ## Claim theorems -/

/-- Claim C1: for every invocation of `get_file_food_counts` with
`level > 0`, every count in the returned frequency table strictly exceeds
the water noise floor of that invocation, so the label `"water"` itself
never appears; on the spec's concrete scenario (one selected cluster
contributing `ref1 → fruit`, `ref2 → fruit`, `water1 → water` at level 3)
the result is exactly `{"fruit": 2}`. -/
theorem c1_counts_exceed_noise_floor :
    (∀ (gnps_network : List ClusterRow) (sample_types : List FoodRecord)
        (all_groups some_groups filename : List String) (level : Nat),
      0 < level →
      ∀ p ∈ get_file_food_counts gnps_network sample_types all_groups some_groups
          filename level,
        waterCount gnps_network sample_types all_groups some_groups filename level < p.2 ∧
        p.1 ≠ "water") ∧
    get_file_food_counts scGnps scOnt ["G1"] ["G1"] ["sample1.mzXML"] 3 = [("fruit", 2)] := by
  constructor
  · intro gnps st ag sg fns level hlv p hp
    simp only [get_file_food_counts] at hp
    obtain ⟨x, hxd, rfl⟩ := mem_valueCounts.mp hp
    have hxk := mem_dedupFirst.mp hxd
    have hxf := List.mem_filter.mp hxk
    have hxv : x ∈ (dedupFirst (selectedLabels gnps st ag sg fns level)).filter
        (fun y => decide (waterCount gnps st ag sg fns level <
          countOf (selectedLabels gnps st ag sg fns level) y)) :=
      of_decide_eq_true hxf.2
    have hlt : waterCount gnps st ag sg fns level <
        countOf (selectedLabels gnps st ag sg fns level) x :=
      of_decide_eq_true (List.mem_filter.mp hxv).2
    have hcnt : countOf ((selectedLabels gnps st ag sg fns level).filter
          (fun y => decide (y ∈ (dedupFirst (selectedLabels gnps st ag sg fns level)).filter
            (fun z => decide (waterCount gnps st ag sg fns level <
              countOf (selectedLabels gnps st ag sg fns level) z))))) x =
        countOf (selectedLabels gnps st ag sg fns level) x :=
      countOf_filter_of_pos hxf.2
    constructor
    · rw [hcnt]
      exact hlt
    · intro hwx
      subst hwx
      rw [waterCount, if_pos hlv] at hlt
      exact lt_irrefl _ hlt
  · decide

/-- Witness for C1 at the spec scenario. -/
theorem c1_witness :
    0 < 3 ∧
    ("fruit", 2) ∈ get_file_food_counts scGnps scOnt ["G1"] ["G1"] ["sample1.mzXML"] 3 ∧
    (waterCount scGnps scOnt ["G1"] ["G1"] ["sample1.mzXML"] 3 < 2 ∧ "fruit" ≠ "water") :=
  ⟨by decide, by decide,
   c1_counts_exceed_noise_floor.1 scGnps scOnt ["G1"] ["G1"] ["sample1.mzXML"] 3
     (by decide) ("fruit", 2) (by decide)⟩

/-- Claim C2: `get_file_food_counts` selects exactly the cluster rows where
every `all_groups` column is strictly positive, at least one `some_groups`
column is strictly positive, and every group of `{G1..G6}` outside
`all_groups ∪ some_groups` is exactly zero. -/
theorem c2_row_selection :
    ∀ (gnps_network : List ClusterRow) (all_groups some_groups : List String)
      (r : ClusterRow),
      r ∈ selectRows gnps_network all_groups some_groups ↔
        r ∈ gnps_network ∧
        (∀ g ∈ all_groups, 0 < r.gval g) ∧
        (∃ g ∈ some_groups, 0 < r.gval g) ∧
        (∀ g ∈ allGroupNames, g ∉ all_groups → g ∉ some_groups → r.gval g = 0) := by
  intro gnps ag sg r
  rw [selectRows, List.mem_filter, rowSelected]
  simp only [Bool.and_eq_true, List.all_eq_true, List.any_eq_true, decide_eq_true_eq,
    excludedGroups, List.mem_filter, Bool.not_eq_true', decide_eq_false_iff_not]
  constructor
  · rintro ⟨hm, ⟨h1, h2⟩, h3⟩
    exact ⟨hm, h1, h2, fun g hg h4 h5 => h3 g ⟨hg, fun hc => hc.elim h4 h5⟩⟩
  · rintro ⟨hm, h1, h2, h3⟩
    exact ⟨hm, ⟨h1, h2⟩,
      fun g hg => h3 g hg.1 (fun h => hg.2 (Or.inl h)) (fun h => hg.2 (Or.inr h))⟩

/-- Witness for C2: the scenario row satisfies the selection pattern. -/
theorem c2_witness : scRow ∈ selectRows scGnps ["G1"] ["G1"] :=
  (c2_row_selection scGnps ["G1"] ["G1"] scRow).mpr
    ⟨List.mem_singleton.mpr rfl, by decide, by decide, by decide⟩

end GfopModel

namespace GfopModel

/-- Counterexample to claim C3 as stated: at level 0 the exploded,
ontology-present identifier `"ref1.mzXML"` is retained, but under the label
of its ontology `sample_name` (`"apple juice"`), not under the identifier
itself. -/
theorem c3_counterexample :
    get_file_food_counts c3Gnps c3Ont ["G1"] ["G1"] ["ref1.mzXML"] 0 =
      [("apple juice", 1)] ∧
    "ref1.mzXML" ∉ (get_file_food_counts c3Gnps c3Ont ["G1"] ["G1"] ["ref1.mzXML"] 0).map
      Prod.fst ∧
    "ref1.mzXML" ∈ explodedFiles c3Gnps ["G1"] ["G1"] ["ref1.mzXML"] := by
  decide

/-- Claim C3 (amended): at level 0 no noise floor is applied (the floor is
fixed at 0) and every matched label is retained — the returned table is
exactly the frequency table of all ontology-matched labels — but the label
of an identifier is its ontology `sample_name`, not the identifier itself. -/
theorem c3_level0_no_floor :
    ∀ (gnps_network : List ClusterRow) (sample_types : List FoodRecord)
      (all_groups some_groups filename : List String),
      waterCount gnps_network sample_types all_groups some_groups filename 0 = 0 ∧
      get_file_food_counts gnps_network sample_types all_groups some_groups filename 0 =
        valueCounts (selectedLabels gnps_network sample_types all_groups some_groups
          filename 0) := by
  intro gnps st ag sg fns
  refine ⟨rfl, ?_⟩
  have h1 : (dedupFirst (selectedLabels gnps st ag sg fns 0)).filter
      (fun x => decide (waterCount gnps st ag sg fns 0 <
        countOf (selectedLabels gnps st ag sg fns 0) x)) =
      dedupFirst (selectedLabels gnps st ag sg fns 0) :=
    List.filter_eq_self.mpr (fun x hx =>
      decide_eq_true (countOf_pos (mem_dedupFirst.mp hx)))
  simp only [get_file_food_counts, h1]
  rw [List.filter_eq_self.mpr (fun x hx => decide_eq_true (mem_dedupFirst.mpr hx))]

/-- Witness for the amended C3 at the level-0 scenario. -/
theorem c3_witness :
    waterCount c3Gnps c3Ont ["G1"] ["G1"] ["ref1.mzXML"] 0 = 0 ∧
    get_file_food_counts c3Gnps c3Ont ["G1"] ["G1"] ["ref1.mzXML"] 0 =
      valueCounts (selectedLabels c3Gnps c3Ont ["G1"] ["G1"] ["ref1.mzXML"] 0) :=
  c3_level0_no_floor c3Gnps c3Ont ["G1"] ["G1"] ["ref1.mzXML"]

/-- Counterexample to claim C4 as stated: on a dataset whose single study
file yields an empty count vector, `get_dataset_food_counts` does not return
an (empty) matrix — the `pd.concat([])` step raises, modelled as `none`. -/
theorem c4_counterexample :
    (get_sample_metadata c4Gnps ["G1"]).map Prod.snd = ["studyA.mzXML"] ∧
    perFileCounts c4Gnps [] ["G1"] ["G1"] 1 "studyA.mzXML" = [] ∧
    get_dataset_food_counts c4Gnps [] ["G1"] ["G1"] 1 = none := by
  decide

/-- Claim C4 (amended): when every study file's count vector is empty,
`get_dataset_food_counts` raises (`pd.concat` on an empty list of objects),
modelled as `none`; it never returns an empty matrix. -/
theorem c4_empty_input_errors :
    ∀ (gnps_network : List ClusterRow) (sample_types : List FoodRecord)
      (all_groups some_groups : List String) (level : Nat),
      (∀ f ∈ (get_sample_metadata gnps_network all_groups).map Prod.snd,
        perFileCounts gnps_network sample_types all_groups some_groups level f = []) →
      get_dataset_food_counts gnps_network sample_types all_groups some_groups level =
        none := by
  intro gnps st ag sg lv h
  have hk : keptFiles gnps st ag sg lv = [] := by
    rw [keptFiles]
    refine List.filter_eq_nil_iff.mpr (fun f hf => ?_)
    simp [h f hf]
  simp [get_dataset_food_counts, hk]

/-- Witness for the amended C4. -/
theorem c4_witness : get_dataset_food_counts c4Gnps [] ["G1"] ["G1"] 5 = none :=
  c4_empty_input_errors c4Gnps [] ["G1"] ["G1"] 5 (by decide)

/-- Claim C5: `get_sample_metadata` discards every row whose `DefaultGroups`
contains the comma marker, keeps only rows whose sole group is in
`all_groups`, explodes the `|`-separated `UniqueFileSources` into
`(group, filename)` pairs and deduplicates them; prepending a comma-marked
row changes nothing. -/
theorem c5_group_resolution :
    ∀ (gnps_network : List ClusterRow) (all_groups : List String),
      (get_sample_metadata gnps_network all_groups).Nodup ∧
      (∀ (g fn : String),
        (g, fn) ∈ get_sample_metadata gnps_network all_groups ↔
          ∃ r ∈ gnps_network, hasComma r.DefaultGroups = false ∧
            r.DefaultGroups = g ∧ g ∈ all_groups ∧
            fn ∈ pipeSplit r.UniqueFileSources) ∧
      ∀ r : ClusterRow, hasComma r.DefaultGroups = true →
        get_sample_metadata (r :: gnps_network) all_groups =
          get_sample_metadata gnps_network all_groups := by
  intro gnps ag
  refine ⟨nodup_dedupFirst _, ?_, ?_⟩
  · intro g fn
    simp only [get_sample_metadata, mem_dedupFirst, List.mem_flatMap, List.mem_map,
      List.mem_filter, Bool.not_eq_true', decide_eq_true_eq, Prod.mk.injEq]
    constructor
    · rintro ⟨r, ⟨⟨hr, hcomma⟩, hin⟩, fn', hfn', hg, hfn⟩
      subst hg
      subst hfn
      exact ⟨r, hr, hcomma, rfl, hin, hfn'⟩
    · rintro ⟨r, hr, hcomma, rfl, hin, hfn⟩
      exact ⟨r, ⟨⟨hr, hcomma⟩, hin⟩, fn, hfn, rfl, rfl⟩
  · intro r hr
    simp only [get_sample_metadata, List.filter_cons, Bool.not_eq_true', hr]
    rfl

/-- Witness for C5: the ambiguous row `c5Row` contributes nothing, while
the scenario row's exploded pairs are present. -/
theorem c5_witness :
    get_sample_metadata (c5Row :: scGnps) ["G1"] = get_sample_metadata scGnps ["G1"] ∧
    ("G1", "sample1.mzXML") ∈ get_sample_metadata scGnps ["G1"] :=
  ⟨(c5_group_resolution scGnps ["G1"]).2.2 c5Row (by decide),
   ((c5_group_resolution scGnps ["G1"]).2.1 "G1" "sample1.mzXML").mpr
     ⟨scRow, List.mem_singleton.mpr rfl, by decide, by decide, by decide, by decide⟩⟩

/-- Claim C9: `get_dataset_food_counts` is a pure function of its inputs —
equal input tables and parameters give equal results (the shallow embedding
has no mutable state, matching the source, which never mutates its input
tables). -/
theorem c9_pure_function :
    ∀ (g1 g2 : List ClusterRow) (s1 s2 : List FoodRecord)
      (a1 a2 b1 b2 : List String) (l1 l2 : Nat),
      g1 = g2 → s1 = s2 → a1 = a2 → b1 = b2 → l1 = l2 →
      get_dataset_food_counts g1 s1 a1 b1 l1 = get_dataset_food_counts g2 s2 a2 b2 l2 := by
  intro g1 g2 s1 s2 a1 a2 b1 b2 l1 l2 h1 h2 h3 h4 h5
  subst h1
  subst h2
  subst h3
  subst h4
  subst h5
  rfl

/-- Witness for C9 at the spec scenario. -/
theorem c9_witness :
    get_dataset_food_counts scGnps scOnt ["G1"] ["G1"] 3 =
      get_dataset_food_counts scGnps scOnt ["G1"] ["G1"] 3 :=
  c9_pure_function scGnps scGnps scOnt scOnt ["G1"] ["G1"] ["G1"] ["G1"] 3 3
    rfl rfl rfl rfl rfl

/-- Claim C10: the target-file restriction keeps a row iff some element of
the `filename` argument is a substring of the row's `UniqueFileSources`;
when a plain string is passed, Python iterates its characters, so each
single character is tested (demonstrated on `c10Row`, kept by the characters
of `"ref9.mzXML"` even though the whole name is not a substring); the
internal caller wraps the filename in a singleton list. -/
theorem c10_filename_substring_matching :
    (∀ (fns : List String) (r : ClusterRow),
      keepRowFile fns r = true ↔ ∃ fn ∈ fns, isSubstr fn r.UniqueFileSources = true) ∧
    (∀ (s : String) (r : ClusterRow),
      keepRowFile (pyStrElems s) r = true ↔
        ∃ c ∈ s.toList, isSubstr (String.singleton c) r.UniqueFileSources = true) ∧
    (keepRowFile (pyStrElems "ref9.mzXML") c10Row = true ∧
      isSubstr "ref9.mzXML" c10Row.UniqueFileSources = false) ∧
    (∀ (gnps_network : List ClusterRow) (sample_types : List FoodRecord)
        (all_groups some_groups : List String) (level : Nat) (f : String),
      perFileCounts gnps_network sample_types all_groups some_groups level f =
        get_file_food_counts gnps_network sample_types all_groups some_groups [f] level) := by
  refine ⟨?_, ?_, by decide, fun _ _ _ _ _ _ => rfl⟩
  · intro fns r
    rw [keepRowFile, List.any_eq_true]
  · intro s r
    rw [keepRowFile, pyStrElems, List.any_eq_true]
    constructor
    · rintro ⟨fn, hfn, hsub⟩
      obtain ⟨c, hc, rfl⟩ := List.mem_map.mp hfn
      exact ⟨c, hc, hsub⟩
    · rintro ⟨c, hc, hsub⟩
      exact ⟨String.singleton c, List.mem_map.mpr ⟨c, hc, rfl⟩, hsub⟩

/-- Witness for C10 at the spec scenario. -/
theorem c10_witness :
    keepRowFile ["sample1.mzXML"] scRow = true ∧
    perFileCounts scGnps scOnt ["G1"] ["G1"] 3 "sample1.mzXML" =
      get_file_food_counts scGnps scOnt ["G1"] ["G1"] ["sample1.mzXML"] 3 :=
  ⟨(c10_filename_substring_matching.1 ["sample1.mzXML"] scRow).mpr
     ⟨"sample1.mzXML", by decide, by decide⟩,
   c10_filename_substring_matching.2.2.2 scGnps scOnt ["G1"] ["G1"] 3 "sample1.mzXML"⟩

end GfopModel

namespace GfopModel

/-- Claim C6: in a returned dataset matrix, the row index is exactly the
list of study files whose per-file count vector is nonempty (equivalently,
has a nonzero entry), in processing order, and every cell whose label was
not produced by `get_file_food_counts` for that file is exactly 0. -/
theorem c6_matrix_completeness :
    ∀ (gnps_network : List ClusterRow) (sample_types : List FoodRecord)
      (all_groups some_groups : List String) (level : Nat) (M : CountMatrix),
      get_dataset_food_counts gnps_network sample_types all_groups some_groups level =
        some M →
      M.rowNames = ((get_sample_metadata gnps_network all_groups).map Prod.snd).filter
        (fun f => !(perFileCounts gnps_network sample_types all_groups some_groups
          level f).isEmpty) ∧
      (∀ f : String,
        (!(perFileCounts gnps_network sample_types all_groups some_groups level
            f).isEmpty) = true ↔
          ∃ p ∈ perFileCounts gnps_network sample_types all_groups some_groups level f,
            0 < p.2) ∧
      ∀ p ∈ M.rowNames.zip M.cells, ∀ q ∈ M.colNames.zip p.2,
        q.1 ∉ (perFileCounts gnps_network sample_types all_groups some_groups level
          p.1).map Prod.fst → q.2 = 0 := by
  intro gnps st ag sg lv M hM
  have hpos : ∀ f : String,
      (!(perFileCounts gnps st ag sg lv f).isEmpty) = true ↔
        ∃ p ∈ perFileCounts gnps st ag sg lv f, 0 < p.2 := by
    intro f
    constructor
    · intro hne
      obtain ⟨p, hp⟩ : ∃ p, p ∈ perFileCounts gnps st ag sg lv f := by
        cases hpp : perFileCounts gnps st ag sg lv f with
        | nil =>
          rw [hpp] at hne
          cases hne
        | cons a t => exact ⟨a, hpp ▸ List.mem_cons_self a t⟩
      refine ⟨p, hp, ?_⟩
      have hp2 := hp
      rw [perFileCounts] at hp2
      simp only [get_file_food_counts] at hp2
      obtain ⟨x, hxd, rfl⟩ := mem_valueCounts.mp hp2
      exact countOf_pos (mem_dedupFirst.mp hxd)
    · rintro ⟨p, hp, _⟩
      have := List.ne_nil_of_mem hp
      cases hpp : perFileCounts gnps st ag sg lv f with
      | nil => exact absurd hpp this
      | cons a t => rfl
  simp only [get_dataset_food_counts] at hM
  by_cases hk : (keptFiles gnps st ag sg lv).isEmpty
  · rw [if_pos hk] at hM
    cases hM
  · rw [if_neg hk, Option.some_inj] at hM
    subst hM
    refine ⟨rfl, hpos, ?_⟩
    intro p hp q hq hnot
    simp only [zip_self_map] at hp
    obtain ⟨f, hf, rfl⟩ := List.mem_map.mp hp
    simp only [zip_self_map] at hq
    obtain ⟨l, hl, rfl⟩ := List.mem_map.mp hq
    simp only
    rw [lookupCount]
    cases hfind : (perFileCounts gnps st ag sg lv f).find? (fun p0 => p0.1 == l) with
    | none => rfl
    | some p0 =>
      exfalso
      have hmem := List.mem_of_find?_eq_some hfind
      have hpred := List.find?_some hfind
      have : p0.1 = l := eq_of_beq hpred
      exact hnot (this ▸ List.mem_map.mpr ⟨p0, hmem, rfl⟩)

/-- Witness for C6 at the spec scenario. -/
theorem c6_witness :
    (CountMatrix.mk
        ["sample1.mzXML", "ref1.mzXML", "ref2.mzXML", "water1.mzXML"] ["fruit"]
        [[2], [2], [2], [2]]).rowNames =
      ((get_sample_metadata scGnps ["G1"]).map Prod.snd).filter
        (fun f => !(perFileCounts scGnps scOnt ["G1"] ["G1"] 3 f).isEmpty) :=
  (c6_matrix_completeness scGnps scOnt ["G1"] ["G1"] 3
    (CountMatrix.mk ["sample1.mzXML", "ref1.mzXML", "ref2.mzXML", "water1.mzXML"]
      ["fruit"] [[2], [2], [2], [2]]) (by decide)).1

end GfopModel

namespace GfopModel

/-! ## Structure of `get_dataset_food_counts` and of the long format -/

theorem seqOpt_eq_some {α : Type} :
    ∀ (os : List (Option α)) (bs : List α), seqOpt os = some bs ↔ os = bs.map some := by
  intro os
  induction os with
  | nil =>
    intro bs
    cases bs with
    | nil => simp [seqOpt]
    | cons b bt => simp [seqOpt]
  | cons o os ih =>
    intro bs
    cases o with
    | none =>
      rw [show seqOpt (none :: os) = (none : Option (List α)) from rfl]
      constructor
      · intro h
        cases h
      · intro h
        cases bs with
        | nil => cases h
        | cons b bt => simp at h
    | some a =>
      rw [show seqOpt (some a :: os) = (match seqOpt os with
          | none => none
          | some bt => some (a :: bt)) from rfl]
      cases hos : seqOpt os with
      | none =>
        constructor
        · intro h
          cases h
        · intro h
          cases bs with
          | nil => cases h
          | cons b bt =>
            simp only [List.map_cons, List.cons.injEq] at h
            rw [(ih bt).mpr h.2] at hos
            cases hos
      | some bt =>
        constructor
        · intro h
          rw [Option.some_inj] at h
          subst h
          simp only [List.map_cons]
          rw [(ih bt).mp hos]
        · intro h
          cases bs with
          | nil => cases h
          | cons b bs2 =>
            simp only [List.map_cons, List.cons.injEq] at h
            have h3 := (ih bs2).mpr h.2
            rw [h3, Option.some_inj] at hos
            subst hos
            have h4 : a = b := Option.some_inj.mp h.1
            subst h4
            rfl

theorem flatMap_getD_of_map_some {α β : Type} (f : α → Option (List β)) :
    ∀ (l : List α) (bs : List (List β)), l.map f = bs.map some →
      bs.flatMap id = l.flatMap (fun a => (f a).getD []) := by
  intro l
  induction l with
  | nil =>
    intro bs h
    have : bs = [] := by
      cases bs with
      | nil => rfl
      | cons b bt => simp at h
    subst this
    rfl
  | cons a t ih =>
    intro bs h
    cases bs with
    | nil => simp at h
    | cons b bt =>
      simp only [List.map_cons, List.cons.injEq] at h
      simp only [List.flatMap_cons, h.1, Option.getD_some, id_eq]
      rw [ih bt h.2]

theorem isSome_of_map_some {α β : Type} (f : α → Option β) :
    ∀ (l : List α) (bs : List β), l.map f = bs.map some →
      ∀ a ∈ l, ∃ b, f a = some b := by
  intro l
  induction l with
  | nil => intro bs _ a ha; cases ha
  | cons x t ih =>
    intro bs h a ha
    cases bs with
    | nil => simp at h
    | cons b bt =>
      simp only [List.map_cons, List.cons.injEq] at h
      rcases List.mem_cons.mp ha with rfl | hmem
      · exact ⟨b, h.1⟩
      · exact ih bt h.2 a hmem

theorem level_of_mem_meltCols :
    ∀ (colsN : List String) (rowsN : List String) (cells : List (List Nat))
      (j lv : Nat) (r : LongRow), r ∈ meltCols rowsN cells colsN j lv → r.level = lv := by
  intro colsN
  induction colsN with
  | nil => intro _ _ _ _ r hr; cases hr
  | cons c cs ih =>
    intro rowsN cells j lv r hr
    rcases List.mem_append.mp hr with h | h
    · obtain ⟨p, _, rfl⟩ := List.mem_map.mp h
      rfl
    · exact ih rowsN cells (j + 1) lv r h

theorem meltCols_grid (gg : String → String → Nat) (rowsN : List String) (lv : Nat) :
    ∀ (suf pre : List String),
      meltCols rowsN (rowsN.map (fun f => (pre ++ suf).map (gg f))) suf pre.length lv =
        suf.flatMap (fun l => rowsN.map (fun f => ⟨f, l, lv, gg f l, none⟩)) := by
  intro suf
  induction suf with
  | nil => intro pre; rfl
  | cons l ls ih =>
    intro pre
    simp only [meltCols, List.flatMap_cons]
    congr 1
    · rw [zip_self_map, List.map_map]
      refine List.map_congr_left (fun f _ => ?_)
      simp only [Function.comp_apply]
      have hget : ((pre ++ l :: ls).map (gg f)).getD pre.length 0 = gg f l := by
        rw [List.map_append, List.getD_append_right _ _ _ _ (by simp)]
        simp
      rw [hget]
    · rw [show pre ++ l :: ls = (pre ++ [l]) ++ ls by simp,
        show pre.length + 1 = (pre ++ [l]).length by simp]
      exact ih (pre ++ [l])

theorem meltRows_grid (gg : String → String → Nat) (rowsN colsN : List String) (lv : Nat) :
    meltRows ⟨rowsN, colsN, rowsN.map (fun f => colsN.map (gg f))⟩ lv =
      colsN.flatMap (fun l => rowsN.map (fun f => ⟨f, l, lv, gg f l, none⟩)) := by
  have h := meltCols_grid gg rowsN lv colsN []
  simp only [List.nil_append, List.length_nil] at h
  exact h

theorem flatMap_if_single {β : Type} :
    ∀ (l : List Nat) (lv : Nat) (g : Nat → List β), l.Nodup → lv ∈ l →
      (l.flatMap (fun x => if x = lv then g x else [])) = g lv := by
  intro l
  induction l with
  | nil => intro lv g _ h; cases h
  | cons a t ih =>
    intro lv g hnd hmem
    simp only [List.flatMap_cons]
    by_cases ha : a = lv
    · subst ha
      rw [if_pos rfl]
      have : t.flatMap (fun x => if x = a then g x else []) = [] :=
        List.flatMap_eq_nil_iff.mpr (fun x hx => by
          rw [if_neg]
          intro hxa
          subst hxa
          exact (List.nodup_cons.mp hnd).1 hx)
      rw [this, List.append_nil]
    · rw [if_neg ha, List.nil_append]
      exact ih lv g (List.nodup_cons.mp hnd).2
        ((List.mem_cons.mp hmem).resolve_left (fun h => ha h.symm))

end GfopModel

namespace GfopModel

theorem dedupFirstAux_replicate_not_mem {α : Type} [DecidableEq α] (c : α) :
    ∀ (n : Nat) (seen : List α), c ∉ seen → 0 < n →
      dedupFirstAux (List.replicate n c) seen = [c] := by
  intro n seen hs hn
  cases n with
  | zero => cases hn
  | succ k =>
    rw [List.replicate_succ]
    simp only [dedupFirstAux, if_neg hs]
    rw [dedupFirstAux_eq_nil]
    intro x hx
    rw [(List.mem_replicate.mp hx).2]
    exact List.mem_cons_self c seen

theorem dedupFirst_flatMap_id (rows : List String) :
    ∀ cols : List String, cols ≠ [] → rows.Nodup →
      dedupFirst (cols.flatMap (fun _ => rows)) = rows := by
  intro cols hc hnd
  cases cols with
  | nil => exact absurd rfl hc
  | cons c cs =>
    rw [List.flatMap_cons, dedupFirst_append_of_subset]
    · exact dedupFirst_eq_self hnd
    · intro x hx
      obtain ⟨l, _, hxl⟩ := List.mem_flatMap.mp hx
      exact hxl

theorem dedupFirstAux_flatMap_blocks {α : Type} [DecidableEq α] :
    ∀ (cols : List α) (n : Nat) (seen : List α), cols.Nodup → (∀ l ∈ cols, l ∉ seen) →
      0 < n → dedupFirstAux (cols.flatMap (fun l => List.replicate n l)) seen = cols := by
  intro cols
  induction cols with
  | nil => intro n seen _ _ _; rfl
  | cons c cs ih =>
    intro n seen hnd hdisj hn
    rw [List.flatMap_cons, dedupFirstAux_append,
      dedupFirstAux_replicate_not_mem c n seen (hdisj c (List.mem_cons_self c cs)) hn,
      List.singleton_append]
    congr 1
    refine ih n _ (List.nodup_cons.mp hnd).2 ?_ hn
    intro l hl
    rw [mem_seenAfter]
    rintro (hrep | hseen)
    · exact (List.nodup_cons.mp hnd).1 ((List.mem_replicate.mp hrep).2 ▸ hl)
    · exact hdisj l (List.mem_cons_of_mem c hl) hseen

theorem dedupFirst_flatMap_blocks (cols rows : List String) (hr : rows ≠ [])
    (hnd : cols.Nodup) :
    dedupFirst (cols.flatMap (fun l => rows.map (fun _ => l))) = cols := by
  have hn : 0 < rows.length := List.length_pos.mpr hr
  have heq : cols.flatMap (fun l => rows.map (fun _ => l)) =
      cols.flatMap (fun l => List.replicate rows.length l) :=
    List.flatMap_congr (fun l _ => List.map_const' rows l)
  rw [heq, dedupFirst]
  exact dedupFirstAux_flatMap_blocks cols rows.length [] hnd (by simp) hn

theorem isGroupedAux_replicate {α : Type} [DecidableEq α] (cur : α) (seen : List α) :
    ∀ (m : Nat) (t : List α),
      isGroupedAux cur seen (List.replicate m cur ++ t) = isGroupedAux cur seen t := by
  intro m
  induction m with
  | zero => intro t; rfl
  | succ k ih =>
    intro t
    rw [List.replicate_succ, List.cons_append]
    simp only [isGroupedAux, if_pos rfl]
    exact ih t

theorem isGroupedAux_flatMap {α : Type} [DecidableEq α] :
    ∀ (cols : List α) (cur : α) (seen : List α) (n : Nat), cols.Nodup → cur ∉ cols →
      (∀ l ∈ cols, l ∉ seen) →
      isGroupedAux cur seen (cols.flatMap (fun l => List.replicate (n + 1) l)) = true := by
  intro cols
  induction cols with
  | nil => intro cur seen n _ _ _; rfl
  | cons c cs ih =>
    intro cur seen n hnd hcur hdisj
    rw [List.flatMap_cons, List.replicate_succ, List.cons_append]
    have hc1 : c ≠ cur := fun h => hcur (h ▸ List.mem_cons_self c cs)
    have hc2 : c ∉ seen := hdisj c (List.mem_cons_self c cs)
    simp only [isGroupedAux, if_neg hc1, if_neg hc2]
    rw [isGroupedAux_replicate]
    refine ih c _ n (List.nodup_cons.mp hnd).2 (List.nodup_cons.mp hnd).1 ?_
    intro l hl
    rw [List.mem_cons]
    rintro (rfl | hs)
    · exact hcur (List.mem_cons_of_mem c hl)
    · exact hdisj l (List.mem_cons_of_mem c hl) hs

theorem isGrouped_flatMap_blocks {α : Type} [DecidableEq α] (cols : List α) (n : Nat)
    (hnd : cols.Nodup) :
    isGrouped (cols.flatMap (fun l => List.replicate n l)) = true := by
  cases n with
  | zero =>
    have h0 : cols.flatMap (fun l => List.replicate 0 l) = [] :=
      List.flatMap_eq_nil_iff.mpr (fun x _ => rfl)
    rw [h0]
    rfl
  | succ k =>
    cases cols with
    | nil => rfl
    | cons c cs =>
      rw [List.flatMap_cons, List.replicate_succ, List.cons_append]
      show isGroupedAux c [] (List.replicate k c ++ cs.flatMap (fun l => List.replicate (k + 1) l)) = true
      rw [isGroupedAux_replicate]
      exact isGroupedAux_flatMap cs c [] k (List.nodup_cons.mp hnd).2
        (List.nodup_cons.mp hnd).1 (by simp)

theorem pairwise_le_of_all_eq (l : List Nat) (k : Nat) (h : ∀ x ∈ l, x = k) :
    List.Pairwise (· ≤ ·) l := by
  induction l with
  | nil => exact List.Pairwise.nil
  | cons a t ih =>
    refine List.pairwise_cons.mpr ⟨?_, ih (fun x hx => h x (List.mem_cons_of_mem a hx))⟩
    intro b hb
    rw [h a (List.mem_cons_self a t), h b (List.mem_cons_of_mem a hb)]

theorem sorted_levels_flatMap (bf : Nat → List LongRow)
    (hbf : ∀ L r, r ∈ bf L → r.level = L) :
    ∀ n, List.Pairwise (· ≤ ·) (((List.range n).flatMap bf).map (fun r => r.level)) := by
  intro n
  induction n with
  | zero => simp
  | succ k ih =>
    rw [List.range_succ, List.flatMap_append, List.map_append]
    refine (List.pairwise_append).mpr ⟨ih, ?_, ?_⟩
    · refine pairwise_le_of_all_eq _ k ?_
      intro x hx
      obtain ⟨r, hr, rfl⟩ := List.mem_map.mp hx
      obtain ⟨L, hL, hrL⟩ := List.mem_flatMap.mp hr
      have hLk : L = k := by simpa using hL
      exact hLk ▸ hbf L r hrL
    · intro a ha b hb
      obtain ⟨r, hr, rfl⟩ := List.mem_map.mp ha
      obtain ⟨L, hL, hrL⟩ := List.mem_flatMap.mp hr
      obtain ⟨r2, hr2, rfl⟩ := List.mem_map.mp hb
      obtain ⟨L2, hL2, hrL2⟩ := List.mem_flatMap.mp hr2
      have h1 : r.level = L := hbf L r hrL
      have h2 : r2.level = L2 := hbf L2 r2 hrL2
      have h3 : L < k := List.mem_range.mp hL
      have h4 : L2 = k := by simpa using hL2
      omega

end GfopModel

namespace GfopModel

theorem dataset_some_struct :
    ∀ (gnps_network : List ClusterRow) (sample_types : List FoodRecord)
      (all_groups some_groups : List String) (lv : Nat) (M : CountMatrix),
      get_dataset_food_counts gnps_network sample_types all_groups some_groups lv =
        some M →
      keptFiles gnps_network sample_types all_groups some_groups lv ≠ [] ∧
      M = ⟨keptFiles gnps_network sample_types all_groups some_groups lv,
        datasetLabels gnps_network sample_types all_groups some_groups lv,
        (keptFiles gnps_network sample_types all_groups some_groups lv).map (fun f =>
          (datasetLabels gnps_network sample_types all_groups some_groups lv).map
            (fun l => lookupCount
              (perFileCounts gnps_network sample_types all_groups some_groups lv f) l))⟩ := by
  intro gnps st ag sg lv M hM
  simp only [get_dataset_food_counts] at hM
  by_cases hk : (keptFiles gnps st ag sg lv).isEmpty
  · rw [if_pos hk] at hM
    cases hM
  · rw [if_neg hk, Option.some_inj] at hM
    refine ⟨?_, hM.symm⟩
    intro h
    rw [h] at hk
    exact hk rfl

theorem datasetLabels_ne_nil :
    ∀ (gnps_network : List ClusterRow) (sample_types : List FoodRecord)
      (all_groups some_groups : List String) (lv : Nat),
      keptFiles gnps_network sample_types all_groups some_groups lv ≠ [] →
      datasetLabels gnps_network sample_types all_groups some_groups lv ≠ [] := by
  intro gnps st ag sg lv hk
  obtain ⟨f, hf⟩ : ∃ f, f ∈ keptFiles gnps st ag sg lv := by
    cases hkk : keptFiles gnps st ag sg lv with
    | nil => exact absurd hkk hk
    | cons a t => exact ⟨a, hkk ▸ List.mem_cons_self a t⟩
  have hf2 := hf
  rw [keptFiles] at hf2
  have hpred := (List.mem_filter.mp hf2).2
  have hper : perFileCounts gnps st ag sg lv f ≠ [] := by
    intro hemp
    rw [hemp] at hpred
    cases hpred
  obtain ⟨p, hp⟩ : ∃ p, p ∈ perFileCounts gnps st ag sg lv f := by
    cases hpp : perFileCounts gnps st ag sg lv f with
    | nil => exact absurd hpp hper
    | cons a t => exact ⟨a, hpp ▸ List.mem_cons_self a t⟩
  refine List.ne_nil_of_mem (a := p.1) ?_
  rw [datasetLabels, mem_sortLE, mem_dedupFirst]
  exact List.mem_flatMap.mpr ⟨f, hf, List.mem_map.mpr ⟨p, hp, rfl⟩⟩

theorem all_spec :
    ∀ (gnps_network : List ClusterRow) (sample_types : List FoodRecord)
      (all_groups some_groups : List String) (levels : Nat) (rows : List LongRow),
      get_dataset_food_counts_all gnps_network sample_types all_groups some_groups
        levels = some rows →
      ((get_sample_metadata gnps_network all_groups).map Prod.snd).Nodup ∧
      (∀ lv, lv ≤ levels → ∃ M,
        get_dataset_food_counts gnps_network sample_types all_groups some_groups lv =
          some M) ∧
      rows = (List.range (levels + 1)).flatMap (fun lv =>
        ((levelBlock gnps_network sample_types all_groups some_groups lv).getD []).map
          (groupFill (get_sample_metadata gnps_network all_groups))) := by
  intro gnps st ag sg levels rows h
  simp only [get_dataset_food_counts_all] at h
  cases hseq : seqOpt ((List.range (levels + 1)).map (levelBlock gnps st ag sg)) with
  | none =>
    rw [hseq] at h
    cases h
  | some blocks =>
    rw [hseq] at h
    have h2 : (if ((get_sample_metadata gnps ag).map Prod.snd).Nodup then
        some ((blocks.flatMap id).map (groupFill (get_sample_metadata gnps ag)))
      else none) = some rows := h
    by_cases hnd : ((get_sample_metadata gnps ag).map Prod.snd).Nodup
    · rw [if_pos hnd, Option.some_inj] at h2
      subst h2
      have hmap := (seqOpt_eq_some _ blocks).mp hseq
      refine ⟨hnd, ?_, ?_⟩
      · intro lv hlv
        have hmem : lv ∈ List.range (levels + 1) := List.mem_range.mpr (Nat.lt_succ_of_le hlv)
        obtain ⟨b, hb⟩ := isSome_of_map_some _ _ _ hmap lv hmem
        rw [levelBlock] at hb
        cases hM : get_dataset_food_counts gnps st ag sg lv with
        | none =>
          rw [hM] at hb
          cases hb
        | some M => exact ⟨M, rfl⟩
      · rw [flatMap_getD_of_map_some (levelBlock gnps st ag sg) (List.range (levels + 1))
          blocks hmap, List.map_flatMap]
    · rw [if_neg hnd] at h2
      cases h2

theorem level_of_mem_blockG :
    ∀ (gnps_network : List ClusterRow) (sample_types : List FoodRecord)
      (all_groups some_groups : List String) (L : Nat) (r : LongRow),
      r ∈ ((levelBlock gnps_network sample_types all_groups some_groups L).getD []).map
        (groupFill (get_sample_metadata gnps_network all_groups)) → r.level = L := by
  intro gnps st ag sg L r hr
  cases hb : levelBlock gnps st ag sg L with
  | none =>
    rw [hb] at hr
    cases hr
  | some b =>
    rw [hb] at hr
    rw [levelBlock] at hb
    cases hM : get_dataset_food_counts gnps st ag sg L with
    | none =>
      rw [hM] at hb
      cases hb
    | some M =>
      rw [hM, Option.map_some', Option.some_inj] at hb
      subst hb
      obtain ⟨r0, hr0, rfl⟩ := List.mem_map.mp hr
      exact level_of_mem_meltCols M.colNames M.rowNames M.cells 0 L r0 hr0

theorem rows_filter_level :
    ∀ (gnps_network : List ClusterRow) (sample_types : List FoodRecord)
      (all_groups some_groups : List String) (levels : Nat) (rows : List LongRow),
      get_dataset_food_counts_all gnps_network sample_types all_groups some_groups
        levels = some rows →
      ∀ (lv : Nat) (M : CountMatrix), lv ≤ levels →
        get_dataset_food_counts gnps_network sample_types all_groups some_groups lv =
          some M →
        rows.filter (fun r => r.level == lv) =
          (meltRows M lv).map (groupFill (get_sample_metadata gnps_network all_groups)) := by
  intro gnps st ag sg levels rows h lv M hlv hM
  obtain ⟨hnd, hsome, hrows⟩ := all_spec gnps st ag sg levels rows h
  subst hrows
  rw [List.filter_flatMap]
  have hcongr : ∀ L ∈ List.range (levels + 1),
      (((levelBlock gnps st ag sg L).getD []).map
        (groupFill (get_sample_metadata gnps ag))).filter (fun r => r.level == lv) =
      (if L = lv then ((levelBlock gnps st ag sg L).getD []).map
        (groupFill (get_sample_metadata gnps ag)) else []) := by
    intro L hL
    by_cases hLlv : L = lv
    · subst hLlv
      rw [if_pos rfl]
      refine List.filter_eq_self.mpr (fun r hr => ?_)
      rw [level_of_mem_blockG gnps st ag sg L r hr]
      exact beq_self_eq_true _
    · rw [if_neg hLlv]
      refine List.filter_eq_nil_iff.mpr (fun r hr => ?_)
      rw [level_of_mem_blockG gnps st ag sg L r hr]
      rw [beq_eq_false_iff_ne.mpr hLlv]
      exact Bool.false_ne_true
  rw [List.flatMap_congr hcongr]
  rw [flatMap_if_single (List.range (levels + 1)) lv _ (List.nodup_range _)
    (List.mem_range.mpr (Nat.lt_succ_of_le hlv))]
  rw [levelBlock, hM, Option.map_some', Option.getD_some]

end GfopModel

namespace GfopModel

theorem find?_grid (rowsN : List String) (lv : Nat) (gg : String → String → Nat)
    (grp : String → Option String) :
    ∀ cols : List String, cols.Nodup →
      ∀ l ∈ cols, ∀ f ∈ rowsN,
        ((cols.flatMap (fun l2 => rowsN.map (fun f2 =>
            (⟨f2, l2, lv, gg f2 l2, grp f2⟩ : LongRow)))).find?
          (fun r => r.filename == f && r.food_type == l)) =
          some ⟨f, l, lv, gg f l, grp f⟩ := by
  intro cols
  induction cols with
  | nil =>
    intro _ l hl
    cases hl
  | cons c cs ih =>
    intro hnd l hl f hf
    rw [List.flatMap_cons, List.find?_append]
    rcases List.mem_cons.mp hl with rfl | hl2
    · have h1 : ((rowsN.map (fun f2 => (⟨f2, l, lv, gg f2 l, grp f2⟩ : LongRow))).find?
          (fun r => r.filename == f && r.food_type == l)) =
          some ⟨f, l, lv, gg f l, grp f⟩ := by
        rw [List.find?_map]
        have hpred : ((fun r : LongRow => r.filename == f && r.food_type == l) ∘
            (fun f2 => (⟨f2, l, lv, gg f2 l, grp f2⟩ : LongRow))) =
            (fun f2 => f2 == f) := by
          funext f2
          simp [Function.comp]
        rw [hpred, find?_beq_self rowsN f hf, Option.map_some']
      rw [h1]
      rfl
    · have hlc : c ≠ l := fun h => (List.nodup_cons.mp hnd).1 (h ▸ hl2)
      have h0 : ((rowsN.map (fun f2 => (⟨f2, c, lv, gg f2 c, grp f2⟩ : LongRow))).find?
          (fun r => r.filename == f && r.food_type == l)) = none := by
        rw [List.find?_eq_none]
        intro x hx
        obtain ⟨f2, _, rfl⟩ := List.mem_map.mp hx
        simp [beq_eq_false_iff_ne.mpr hlc]
      rw [h0, Option.none_or]
      exact ih (List.nodup_cons.mp hnd).2 l hl2 f hf

end GfopModel

namespace GfopModel

/-- Claim C7: reshaping the long-format output of
`get_dataset_food_counts_all` back into a per-level wide matrix (grouping by
filename and food type in order of first appearance and pivoting the count)
reproduces, for every level up to `levels`, exactly the matrix returned by
`get_dataset_food_counts` for that level on the same inputs. -/
theorem c7_long_form_round_trip :
    ∀ (gnps_network : List ClusterRow) (sample_types : List FoodRecord)
      (all_groups some_groups : List String) (levels : Nat) (rows : List LongRow),
      get_dataset_food_counts_all gnps_network sample_types all_groups some_groups
        levels = some rows →
      ∀ lv ≤ levels,
        get_dataset_food_counts gnps_network sample_types all_groups some_groups lv =
          some (pivotLevel rows lv) := by
  intro gnps st ag sg levels rows h lv hlv
  obtain ⟨hnd, hsome, _⟩ := all_spec gnps st ag sg levels rows h
  obtain ⟨M, hM⟩ := hsome lv hlv
  obtain ⟨hkne, hMeq⟩ := dataset_some_struct gnps st ag sg lv M hM
  have hlabne : datasetLabels gnps st ag sg lv ≠ [] :=
    datasetLabels_ne_nil gnps st ag sg lv hkne
  have hknd : (keptFiles gnps st ag sg lv).Nodup := by
    rw [keptFiles]
    exact hnd.filter _
  have hlnd : (datasetLabels gnps st ag sg lv).Nodup := by
    rw [datasetLabels]
    exact nodup_sortLE (nodup_dedupFirst _)
  have hfil := rows_filter_level gnps st ag sg levels rows h lv M hlv hM
  have hmelt : meltRows M lv = (datasetLabels gnps st ag sg lv).flatMap (fun l =>
      (keptFiles gnps st ag sg lv).map (fun f =>
        (⟨f, l, lv, lookupCount (perFileCounts gnps st ag sg lv f) l, none⟩ : LongRow))) := by
    rw [hMeq]
    exact meltRows_grid (fun f l => lookupCount (perFileCounts gnps st ag sg lv f) l) _ _ lv
  have hblock : rows.filter (fun r => r.level == lv) =
      (datasetLabels gnps st ag sg lv).flatMap (fun l =>
        (keptFiles gnps st ag sg lv).map (fun f =>
          (⟨f, l, lv, lookupCount (perFileCounts gnps st ag sg lv f) l,
            ((get_sample_metadata gnps ag).find? (fun p => p.2 == f)).map
              Prod.fst⟩ : LongRow))) := by
    rw [hfil, hmelt, List.map_flatMap]
    refine List.flatMap_congr (fun l _ => ?_)
    rw [List.map_map]
    rfl
  suffices hpiv : pivotLevel rows lv = M by
    rw [hpiv]
    exact hM
  simp only [pivotLevel]
  rw [hblock]
  have hmapfn : (((datasetLabels gnps st ag sg lv).flatMap (fun l =>
      (keptFiles gnps st ag sg lv).map (fun f =>
        (⟨f, l, lv, lookupCount (perFileCounts gnps st ag sg lv f) l,
          ((get_sample_metadata gnps ag).find? (fun p => p.2 == f)).map
            Prod.fst⟩ : LongRow)))).map (fun r => r.filename)) =
      (datasetLabels gnps st ag sg lv).flatMap
        (fun _ => keptFiles gnps st ag sg lv) := by
    rw [List.map_flatMap]
    refine List.flatMap_congr (fun l _ => ?_)
    rw [List.map_map]
    exact List.map_id' _
  have hmapft : (((datasetLabels gnps st ag sg lv).flatMap (fun l =>
      (keptFiles gnps st ag sg lv).map (fun f =>
        (⟨f, l, lv, lookupCount (perFileCounts gnps st ag sg lv f) l,
          ((get_sample_metadata gnps ag).find? (fun p => p.2 == f)).map
            Prod.fst⟩ : LongRow)))).map (fun r => r.food_type)) =
      (datasetLabels gnps st ag sg lv).flatMap (fun l =>
        (keptFiles gnps st ag sg lv).map (fun _ => l)) := by
    rw [List.map_flatMap]
    refine List.flatMap_congr (fun l _ => ?_)
    rw [List.map_map]
    rfl
  rw [hmapfn, hmapft,
    dedupFirst_flatMap_id (keptFiles gnps st ag sg lv) (datasetLabels gnps st ag sg lv)
      hlabne hknd,
    dedupFirst_flatMap_blocks (datasetLabels gnps st ag sg lv)
      (keptFiles gnps st ag sg lv) hkne hlnd, hMeq]
  congr 1
  refine List.map_congr_left (fun f hf => ?_)
  refine List.map_congr_left (fun l hl => ?_)
  rw [find?_grid (keptFiles gnps st ag sg lv) lv
    (fun f2 l2 => lookupCount (perFileCounts gnps st ag sg lv f2) l2)
    (fun f2 => ((get_sample_metadata gnps ag).find? (fun p => p.2 == f2)).map Prod.fst)
    (datasetLabels gnps st ag sg lv) hlnd l hl f hf]

/-- Witness for C7 at the ordering scenario: the level-0 matrix is recovered
from the long format. -/
theorem c7_witness :
    get_dataset_food_counts c8Gnps c8Ont ["G1"] ["G1"] 0 = some (pivotLevel c8Rows 0) :=
  c7_long_form_round_trip c8Gnps c8Ont ["G1"] ["G1"] 0 c8Rows (by decide) 0 (by decide)

end GfopModel

namespace GfopModel

/-- Counterexample to claim C8 as stated: on the ordering scenario the
long-format rows are not file-major within a level (the filename column at
level 0 is `[sA, rA, sB, rB, sA, rA, sB, rB]`), so the claimed ordering
predicate evaluates to `false` on the actual output. -/
theorem c8_counterexample :
    (get_dataset_food_counts_all c8Gnps c8Ont ["G1"] ["G1"] 0).map fileMajorOrdered =
      some false := by
  decide

/-- Claim C8 (amended): the long-format rows are ordered with levels
ascending, and within each level in label-major order — all rows of one
`food_type` are contiguous (pandas `melt` stacks the value columns), not
file-major as claimed. -/
theorem c8_level_label_major :
    ∀ (gnps_network : List ClusterRow) (sample_types : List FoodRecord)
      (all_groups some_groups : List String) (levels : Nat) (rows : List LongRow),
      get_dataset_food_counts_all gnps_network sample_types all_groups some_groups
        levels = some rows →
      List.Sorted (· ≤ ·) (rows.map (fun r => r.level)) ∧
      ∀ lv, isGrouped ((rows.filter (fun r => r.level == lv)).map
        (fun r => r.food_type)) = true := by
  intro gnps st ag sg levels rows h
  obtain ⟨hnd, hsome, hrows⟩ := all_spec gnps st ag sg levels rows h
  constructor
  · rw [hrows]
    exact sorted_levels_flatMap _ (fun L r hr => level_of_mem_blockG gnps st ag sg L r hr)
      (levels + 1)
  · intro lv
    by_cases hlv : lv ≤ levels
    · obtain ⟨M, hM⟩ := hsome lv hlv
      obtain ⟨hkne, hMeq⟩ := dataset_some_struct gnps st ag sg lv M hM
      have hlnd : (datasetLabels gnps st ag sg lv).Nodup := by
        rw [datasetLabels]
        exact nodup_sortLE (nodup_dedupFirst _)
      have hfil := rows_filter_level gnps st ag sg levels rows h lv M hlv hM
      have hmelt : meltRows M lv = (datasetLabels gnps st ag sg lv).flatMap (fun l =>
          (keptFiles gnps st ag sg lv).map (fun f =>
            (⟨f, l, lv, lookupCount (perFileCounts gnps st ag sg lv f) l,
              none⟩ : LongRow))) := by
        rw [hMeq]
        exact meltRows_grid (fun f l => lookupCount (perFileCounts gnps st ag sg lv f) l)
          _ _ lv
      rw [hfil, hmelt, List.map_map, List.map_flatMap]
      have hcg : ∀ l ∈ datasetLabels gnps st ag sg lv,
          (((keptFiles gnps st ag sg lv).map (fun f =>
            (⟨f, l, lv, lookupCount (perFileCounts gnps st ag sg lv f) l,
              none⟩ : LongRow))).map ((fun r : LongRow => r.food_type) ∘
                groupFill (get_sample_metadata gnps ag))) =
          List.replicate (keptFiles gnps st ag sg lv).length l := by
        intro l _
        rw [List.map_map]
        exact List.map_const' _ _
      rw [List.flatMap_congr hcg]
      exact isGrouped_flatMap_blocks (datasetLabels gnps st ag sg lv)
        (keptFiles gnps st ag sg lv).length hlnd
    · have hempty : rows.filter (fun r => r.level == lv) = [] := by
        rw [hrows, List.filter_flatMap]
        refine List.flatMap_eq_nil_iff.mpr (fun L hL => ?_)
        refine List.filter_eq_nil_iff.mpr (fun r hr => ?_)
        have h1 := level_of_mem_blockG gnps st ag sg L r hr
        have h2 : L < levels + 1 := List.mem_range.mp hL
        have h3 : r.level ≠ lv := by omega
        rw [beq_eq_false_iff_ne.mpr h3]
        exact Bool.false_ne_true
      rw [hempty]
      rfl

end GfopModel

namespace GfopModel

/-- Witness for the amended C8 at the ordering scenario. -/
theorem c8_witness :
    List.Sorted (· ≤ ·) (c8Rows.map (fun r => r.level)) ∧
    ∀ lv, isGrouped ((c8Rows.filter (fun r => r.level == lv)).map
      (fun r => r.food_type)) = true :=
  c8_level_label_major c8Gnps c8Ont ["G1"] ["G1"] 0 c8Rows (by decide)

end GfopModel
